import Mathlib

/-!
# Verification of the networking utilities of the KVS WebRTC reference

Shallow embedding of `examples/networking/networking_utils` (SigV4 signing
material, URL helpers and time helpers).  The repository only ships the header
`networking_utils.h` (types, result codes, the service-name macro and the
operation signatures); the operation bodies are modelled from the
natural-language specification, as marked on each definition.

Strings are modelled as byte sequences with explicit length (`List Nat`),
matching the `char * / size_t` interface of the C code.
-/

deriving instance DecidableEq for Except

/-- Byte sequences: C strings with explicit lengths become lists of byte values. -/
abbrev ByteSeq := List Nat

/-- The byte values of an ASCII string literal. -/
def bytes (s : String) : ByteSeq := s.data.map Char.toNat

/-- `NetworkingUtilsResult_t` from `networking_utils.h` (lines 35-44). -/
inductive NetworkingUtilsResult where
  | NETWORKING_UTILS_RESULT_OK
  | NETWORKING_UTILS_RESULT_BAD_PARAMETER
  | NETWORKING_UTILS_RESULT_TIME_BUFFER_OUT_OF_MEMORY
  | NETWORKING_UTILS_RESULT_FAIL_CONNECT
  | NETWORKING_UTILS_RESULT_FAIL_SIGV4_GENAUTH
  | NETWORKING_UTILS_RESULT_SCHEMA_DELIMITER_NOT_FOUND
  | NETWORKING_UTILS_RESULT_INVALID_URL
deriving DecidableEq, Repr

/-- `NetworkingHttpVerb_t` from `networking_utils.h` (lines 46-52). -/
inductive NetworkingHttpVerb where
  | NETWORKING_UTILS_HTTP_VERB_NONE
  | NETWORKING_UTILS_HTTP_VERB_GET
  | NETWORKING_UTILS_HTTP_VERB_POST
  | NETWORKING_UTILS_HTTP_VERB_WSS
deriving DecidableEq, Repr

/-- The scheme delimiter `"://"` as bytes (`:` = 58, `/` = 47). -/
def schemeDelim : ByteSeq := [58, 47, 47]

/-- The scheme delimiter occurs in `url` at byte offset `i`. -/
def delimAt (url : ByteSeq) (i : Nat) : Prop :=
  schemeDelim.isPrefixOf (url.drop i) = true

instance (url : ByteSeq) (i : Nat) : Decidable (delimAt url i) := by
  unfold delimAt; infer_instance

/-- Modelled from the spec: the `strstr`-style scan of `NetworkingUtils_GetUrlHost`
and `NetworkingUtils_GetPathFromUrl` locating the first occurrence of the scheme
delimiter `"://"` (the body of `networking_utils.c` is not among the sources). -/
def findDelim : ByteSeq → Option Nat
  | [] => none
  | c :: rest =>
      if schemeDelim.isPrefixOf (c :: rest) then some 0
      else (findDelim rest).map (· + 1)

/-- Modelled from the spec: the host-length loop of `NetworkingUtils_GetUrlHost`,
counting bytes up to the first `/` (47), `:` (58) or `?` (63). -/
def scanHostLen : ByteSeq → Nat
  | [] => 0
  | c :: rest => if c = 47 ∨ c = 58 ∨ c = 63 then 0 else scanHostLen rest + 1

/-- Modelled from the spec: the loop of `NetworkingUtils_GetPathFromUrl` counting
bytes up to the first `/` (47). -/
def scanToSlash : ByteSeq → Nat
  | [] => 0
  | c :: rest => if c = 47 then 0 else scanToSlash rest + 1

/-- Modelled from the spec: `NetworkingUtils_GetUrlHost` (the body of
`networking_utils.c` is missing from the sources; this follows spec section 4.1).
The host is returned as an offset/length pair into the caller-owned URL. -/
def NetworkingUtils_GetUrlHost (url : ByteSeq) :
    Except NetworkingUtilsResult (Nat × Nat) :=
  match findDelim url with
  | none => .error .NETWORKING_UTILS_RESULT_SCHEMA_DELIMITER_NOT_FOUND
  | some i =>
      let hostLen := scanHostLen (url.drop (i + 3))
      if hostLen = 0 then .error .NETWORKING_UTILS_RESULT_INVALID_URL
      else .ok (i + 3, hostLen)

/-- Modelled from the spec: `NetworkingUtils_GetPathFromUrl` (the body of
`networking_utils.c` is missing from the sources; this follows spec section 4.1).
The path runs from the first `/` after the scheme delimiter to the end of the URL. -/
def NetworkingUtils_GetPathFromUrl (url : ByteSeq) :
    Except NetworkingUtilsResult (Nat × Nat) :=
  match findDelim url with
  | none => .error .NETWORKING_UTILS_RESULT_SCHEMA_DELIMITER_NOT_FOUND
  | some i =>
      let k := scanToSlash (url.drop (i + 3))
      .ok (i + 3 + k, url.length - (i + 3 + k))

/-- The substring of `url` designated by an offset/length pair (what the C caller
reads through the returned pointer). -/
def substrAt (url : ByteSeq) (off len : Nat) : ByteSeq := (url.drop off).take len

theorem delimAt_cons (c : Nat) (rest : ByteSeq) (i : Nat) :
    delimAt (c :: rest) (i + 1) ↔ delimAt rest i := by
  simp [delimAt, List.drop_succ_cons]

theorem findDelim_none_iff (url : ByteSeq) :
    findDelim url = none ↔ ∀ i, ¬ delimAt url i := by
  induction url with
  | nil =>
      simp only [findDelim, true_iff]
      intro i
      simp [delimAt, schemeDelim, List.isPrefixOf]
  | cons c rest ih =>
      simp only [findDelim]
      by_cases h : schemeDelim.isPrefixOf (c :: rest) = true
      · simp only [if_pos h, Option.map]
        constructor
        · intro hcontra; cases hcontra
        · intro hall; exact absurd h (by simpa [delimAt] using hall 0)
      · simp only [if_neg h]
        constructor
        · intro hmap i
          have hnone : findDelim rest = none := by
            cases hfd : findDelim rest with
            | none => rfl
            | some j => rw [hfd] at hmap; cases hmap
          cases i with
          | zero => simpa [delimAt] using h
          | succ j => rw [delimAt_cons]; exact (ih.mp hnone) j
        · intro hall
          have : findDelim rest = none := by
            apply ih.mpr
            intro j
            rw [← delimAt_cons c]
            exact hall (j + 1)
          simp [this]

theorem findDelim_some_spec (url : ByteSeq) (i : Nat)
    (h : findDelim url = some i) :
    delimAt url i ∧ ∀ j, j < i → ¬ delimAt url j := by
  induction url generalizing i with
  | nil => cases h
  | cons c rest ih =>
      simp only [findDelim] at h
      by_cases hp : schemeDelim.isPrefixOf (c :: rest) = true
      · rw [if_pos hp] at h
        cases h
        exact ⟨by simpa [delimAt] using hp, fun j hj => absurd hj (Nat.not_lt_zero j)⟩
      · rw [if_neg hp] at h
        cases hfd : findDelim rest with
        | none => rw [hfd] at h; cases h
        | some k =>
            rw [hfd] at h
            simp only [Option.map] at h
            cases h
            obtain ⟨hk, hmin⟩ := ih k hfd
            refine ⟨by rwa [delimAt_cons], ?_⟩
            intro j hj
            cases j with
            | zero => simpa [delimAt] using hp
            | succ m =>
                rw [delimAt_cons]
                exact hmin m (Nat.lt_of_succ_lt_succ hj)

theorem scanHostLen_le_length (l : ByteSeq) : scanHostLen l ≤ l.length := by
  induction l with
  | nil => simp [scanHostLen]
  | cons c rest ih =>
      simp only [scanHostLen, List.length_cons]
      split
      · exact Nat.zero_le _
      · exact Nat.succ_le_succ ih

theorem scanHostLen_spec (l : ByteSeq) :
    (∀ c ∈ l.take (scanHostLen l), c ≠ 47 ∧ c ≠ 58 ∧ c ≠ 63) ∧
    (scanHostLen l < l.length →
        l.getD (scanHostLen l) 0 = 47 ∨ l.getD (scanHostLen l) 0 = 58 ∨
        l.getD (scanHostLen l) 0 = 63) := by
  induction l with
  | nil => exact ⟨by simp, by simp⟩
  | cons c rest ih =>
      by_cases hc : c = 47 ∨ c = 58 ∨ c = 63
      · have hz : scanHostLen (c :: rest) = 0 := by simp [scanHostLen, hc]
        refine ⟨by simp [hz], ?_⟩
        intro h
        simpa [hz] using hc
      · have hs : scanHostLen (c :: rest) = scanHostLen rest + 1 := by
          simp [scanHostLen, hc]
        constructor
        · intro a ha
          rw [hs, List.take_succ_cons] at ha
          rcases List.mem_cons.mp ha with rfl | hmem
          · refine ⟨?_, ?_, ?_⟩ <;> (intro heq; exact hc (by simp [heq]))
          · exact ih.1 a hmem
        · intro h
          rw [hs] at h ⊢
          rw [List.length_cons] at h
          simpa [List.getD] using ih.2 (Nat.lt_of_succ_lt_succ h)

theorem scanToSlash_le_length (l : ByteSeq) : scanToSlash l ≤ l.length := by
  induction l with
  | nil => simp [scanToSlash]
  | cons c rest ih =>
      simp only [scanToSlash, List.length_cons]
      split
      · exact Nat.zero_le _
      · exact Nat.succ_le_succ ih

theorem scanToSlash_spec (l : ByteSeq) :
    (∀ c ∈ l.take (scanToSlash l), c ≠ 47) ∧
    (scanToSlash l < l.length → l.getD (scanToSlash l) 0 = 47) := by
  induction l with
  | nil => exact ⟨by simp, by simp⟩
  | cons c rest ih =>
      by_cases hc : c = 47
      · have hz : scanToSlash (c :: rest) = 0 := by simp [scanToSlash, hc]
        refine ⟨by simp [hz], ?_⟩
        intro h
        simpa [hz] using hc
      · have hs : scanToSlash (c :: rest) = scanToSlash rest + 1 := by
          simp [scanToSlash, hc]
        constructor
        · intro a ha
          rw [hs, List.take_succ_cons] at ha
          rcases List.mem_cons.mp ha with rfl | hmem
          · exact hc
          · exact ih.1 a hmem
        · intro h
          rw [hs] at h ⊢
          rw [List.length_cons] at h
          simpa [List.getD] using ih.2 (Nat.lt_of_succ_lt_succ h)

theorem schemeDelim_isPrefixOf_length (l : ByteSeq)
    (h : schemeDelim.isPrefixOf l = true) : 3 ≤ l.length := by
  match l with
  | [] => simp [schemeDelim, List.isPrefixOf] at h
  | [a] => simp [schemeDelim, List.isPrefixOf] at h
  | [a, b] => simp [schemeDelim, List.isPrefixOf] at h
  | a :: b :: c :: t => simp

theorem delimAt_length (url : ByteSeq) (j : Nat) (h : delimAt url j) :
    j + 3 ≤ url.length := by
  have h3 : 3 ≤ (url.drop j).length := schemeDelim_isPrefixOf_length _ h
  rw [List.length_drop] at h3
  omega

/-- C4: `NetworkingUtils_GetUrlHost` fails with `SCHEMA_DELIMITER_NOT_FOUND`
exactly when the URL has no occurrence of the scheme delimiter `"://"`;
otherwise the host substring runs from just after the first occurrence of the
delimiter to the first `/`, `:` or `?` byte (or to the end of the URL when none
occurs), and the call fails with `INVALID_URL` exactly when that substring has
length zero. -/
theorem getUrlHost_delimits_host (url : ByteSeq) :
    (NetworkingUtils_GetUrlHost url
        = .error .NETWORKING_UTILS_RESULT_SCHEMA_DELIMITER_NOT_FOUND
      ↔ ∀ i, ¬ delimAt url i)
  ∧ (∀ i, delimAt url i →
      ∃ j, j ≤ i ∧ delimAt url j ∧ (∀ k, k < j → ¬ delimAt url k) ∧
        ∃ n, n ≤ (url.drop (j + 3)).length ∧
          (∀ c ∈ substrAt url (j + 3) n, c ≠ 47 ∧ c ≠ 58 ∧ c ≠ 63) ∧
          (n < (url.drop (j + 3)).length →
            (url.drop (j + 3)).getD n 0 = 47 ∨ (url.drop (j + 3)).getD n 0 = 58 ∨
            (url.drop (j + 3)).getD n 0 = 63) ∧
          (NetworkingUtils_GetUrlHost url
              = .error .NETWORKING_UTILS_RESULT_INVALID_URL ↔ n = 0) ∧
          (0 < n → NetworkingUtils_GetUrlHost url = .ok (j + 3, n))) := by
  constructor
  · cases hfd : findDelim url with
    | none =>
        simp only [NetworkingUtils_GetUrlHost, hfd]
        simp only [true_iff, iff_true_intro ((findDelim_none_iff url).mp hfd)]
    | some j =>
        obtain ⟨hj, _⟩ := findDelim_some_spec url j hfd
        simp only [NetworkingUtils_GetUrlHost, hfd]
        constructor
        · intro h
          split at h <;> simp_all
        · intro hall
          exact absurd hj (hall j)
  · intro i hi
    cases hfd : findDelim url with
    | none => exact absurd hi ((findDelim_none_iff url).mp hfd i)
    | some j =>
        obtain ⟨hj, hmin⟩ := findDelim_some_spec url j hfd
        have hji : j ≤ i := Nat.le_of_not_lt fun hlt => hmin i hlt hi
        refine ⟨j, hji, hj, hmin, scanHostLen (url.drop (j + 3)),
          scanHostLen_le_length _, ?_, (scanHostLen_spec (url.drop (j + 3))).2,
          ?_, ?_⟩
        · intro c hc
          exact (scanHostLen_spec (url.drop (j + 3))).1 c (by simpa [substrAt] using hc)
        · simp only [NetworkingUtils_GetUrlHost, hfd]
          constructor
          · intro h
            by_contra hne
            rw [if_neg hne] at h
            cases h
          · intro h
            rw [if_pos h]
        · intro hpos
          simp only [NetworkingUtils_GetUrlHost, hfd]
          rw [if_neg (by omega)]

theorem getUrlHost_delimits_host_witness :
    ∃ j, j ≤ 5 ∧ delimAt (bytes "https://a/b") j ∧
      (∀ k, k < j → ¬ delimAt (bytes "https://a/b") k) ∧
      ∃ n, n ≤ ((bytes "https://a/b").drop (j + 3)).length ∧
        (∀ c ∈ substrAt (bytes "https://a/b") (j + 3) n, c ≠ 47 ∧ c ≠ 58 ∧ c ≠ 63) ∧
        (n < ((bytes "https://a/b").drop (j + 3)).length →
          ((bytes "https://a/b").drop (j + 3)).getD n 0 = 47 ∨
          ((bytes "https://a/b").drop (j + 3)).getD n 0 = 58 ∨
          ((bytes "https://a/b").drop (j + 3)).getD n 0 = 63) ∧
        (NetworkingUtils_GetUrlHost (bytes "https://a/b")
            = .error .NETWORKING_UTILS_RESULT_INVALID_URL ↔ n = 0) ∧
        (0 < n → NetworkingUtils_GetUrlHost (bytes "https://a/b") = .ok (j + 3, n)) :=
  (getUrlHost_delimits_host (bytes "https://a/b")).2 5 (by decide)

/-- C5: for a URL containing `"://"`, `NetworkingUtils_GetPathFromUrl` returns the
substring starting at the first `/` after the delimiter (inclusive), untransformed
(it is literally a suffix of the URL); with no such `/` the path is empty; without
the delimiter the call fails. -/
theorem getPathFromUrl_suffix_spec (url : ByteSeq) :
    ((∀ i, ¬ delimAt url i) → NetworkingUtils_GetPathFromUrl url
        = .error .NETWORKING_UTILS_RESULT_SCHEMA_DELIMITER_NOT_FOUND)
  ∧ (∀ i, delimAt url i →
      ∃ j k, j ≤ i ∧ delimAt url j ∧ (∀ m, m < j → ¬ delimAt url m) ∧
        NetworkingUtils_GetPathFromUrl url = .ok (j + 3 + k, url.length - (j + 3 + k)) ∧
        (∀ c ∈ (url.drop (j + 3)).take k, c ≠ 47) ∧
        (k < (url.drop (j + 3)).length → (url.drop (j + 3)).getD k 0 = 47) ∧
        substrAt url (j + 3 + k) (url.length - (j + 3 + k)) = url.drop (j + 3 + k) ∧
        ((∀ c ∈ url.drop (j + 3), c ≠ 47) → url.length - (j + 3 + k) = 0)) := by
  constructor
  · intro hall
    have hfd : findDelim url = none := (findDelim_none_iff url).mpr hall
    simp only [NetworkingUtils_GetPathFromUrl, hfd]
  · intro i hi
    cases hfd : findDelim url with
    | none => exact absurd hi ((findDelim_none_iff url).mp hfd i)
    | some j =>
        obtain ⟨hj, hmin⟩ := findDelim_some_spec url j hfd
        have hji : j ≤ i := Nat.le_of_not_lt fun hlt => hmin i hlt hi
        refine ⟨j, scanToSlash (url.drop (j + 3)), hji, hj, hmin, ?_,
          (scanToSlash_spec (url.drop (j + 3))).1,
          (scanToSlash_spec (url.drop (j + 3))).2, ?_, ?_⟩
        · simp only [NetworkingUtils_GetPathFromUrl, hfd]
        · have hlen : url.length - (j + 3 + scanToSlash (url.drop (j + 3)))
              = (url.drop (j + 3 + scanToSlash (url.drop (j + 3)))).length := by
            rw [List.length_drop]
          rw [substrAt, hlen]
          exact List.take_length _
        · intro hno
          have hk : ¬ scanToSlash (url.drop (j + 3)) < (url.drop (j + 3)).length := by
            intro hlt
            have h47 := (scanToSlash_spec (url.drop (j + 3))).2 hlt
            have hmem : (url.drop (j + 3)).getD (scanToSlash (url.drop (j + 3))) 0
                ∈ url.drop (j + 3) := by
              rw [List.getD_eq_getElem _ _ hlt]
              exact List.getElem_mem hlt
            exact hno _ hmem h47
          have hle := scanToSlash_le_length (url.drop (j + 3))
          have heq : scanToSlash (url.drop (j + 3)) = (url.drop (j + 3)).length := by omega
          rw [List.length_drop] at heq
          omega

theorem getPathFromUrl_suffix_spec_witness :
    ∃ j k, j ≤ 5 ∧ delimAt (bytes "https://a/b") j ∧
      (∀ m, m < j → ¬ delimAt (bytes "https://a/b") m) ∧
      NetworkingUtils_GetPathFromUrl (bytes "https://a/b")
          = .ok (j + 3 + k, (bytes "https://a/b").length - (j + 3 + k)) ∧
      (∀ c ∈ ((bytes "https://a/b").drop (j + 3)).take k, c ≠ 47) ∧
      (k < ((bytes "https://a/b").drop (j + 3)).length →
        ((bytes "https://a/b").drop (j + 3)).getD k 0 = 47) ∧
      substrAt (bytes "https://a/b") (j + 3 + k) ((bytes "https://a/b").length - (j + 3 + k))
          = (bytes "https://a/b").drop (j + 3 + k) ∧
      ((∀ c ∈ (bytes "https://a/b").drop (j + 3), c ≠ 47) →
        (bytes "https://a/b").length - (j + 3 + k) = 0) :=
  (getPathFromUrl_suffix_spec (bytes "https://a/b")).2 5 (by decide)

/-- C3 counterexample: on the spec's example URL
`"https://example.com:443/path?q=1"` the host scan of spec section 4.1 stops at
the `:` before the port, so `NetworkingUtils_GetUrlHost` yields the 11-byte host
`"example.com"`, not `"example.com:443"` as the claim states. -/
theorem getUrlHost_example_counterexample :
    NetworkingUtils_GetUrlHost (bytes "https://example.com:443/path?q=1") = .ok (8, 11) ∧
    substrAt (bytes "https://example.com:443/path?q=1") 8 11 = bytes "example.com" ∧
    bytes "example.com" ≠ bytes "example.com:443" := by decide

/-- C3 (amended): on `"https://example.com:443/path?q=1"`,
`NetworkingUtils_GetUrlHost` yields the host substring `"example.com"` (the scan
stops at the first `:`), `NetworkingUtils_GetPathFromUrl` yields `"/path?q=1"`,
and every URL without the substring `"://"` makes both operations fail with
`SCHEMA_DELIMITER_NOT_FOUND`. -/
theorem getUrlHost_path_examples :
    (NetworkingUtils_GetUrlHost (bytes "https://example.com:443/path?q=1") = .ok (8, 11)
      ∧ substrAt (bytes "https://example.com:443/path?q=1") 8 11 = bytes "example.com")
  ∧ (NetworkingUtils_GetPathFromUrl (bytes "https://example.com:443/path?q=1") = .ok (23, 9)
      ∧ substrAt (bytes "https://example.com:443/path?q=1") 23 9 = bytes "/path?q=1")
  ∧ (∀ url : ByteSeq, (∀ i, ¬ delimAt url i) →
      NetworkingUtils_GetUrlHost url
          = .error .NETWORKING_UTILS_RESULT_SCHEMA_DELIMITER_NOT_FOUND
      ∧ NetworkingUtils_GetPathFromUrl url
          = .error .NETWORKING_UTILS_RESULT_SCHEMA_DELIMITER_NOT_FOUND) := by
  refine ⟨by decide, by decide, ?_⟩
  intro url hall
  have hfd : findDelim url = none := (findDelim_none_iff url).mpr hall
  constructor
  · simp only [NetworkingUtils_GetUrlHost, hfd]
  · simp only [NetworkingUtils_GetPathFromUrl, hfd]

theorem getUrlHost_path_examples_witness :
    NetworkingUtils_GetUrlHost (bytes "example.com/path")
        = .error .NETWORKING_UTILS_RESULT_SCHEMA_DELIMITER_NOT_FOUND
      ∧ NetworkingUtils_GetPathFromUrl (bytes "example.com/path")
        = .error .NETWORKING_UTILS_RESULT_SCHEMA_DELIMITER_NOT_FOUND :=
  getUrlHost_path_examples.2.2 (bytes "example.com/path")
    ((findDelim_none_iff (bytes "example.com/path")).mp (by decide))

/-- Gregorian leap-year rule. -/
def isLeapYear (y : Nat) : Bool := decide ((y % 4 = 0 ∧ y % 100 ≠ 0) ∨ y % 400 = 0)

/-- Days in year `y`. -/
def daysInYear (y : Nat) : Nat := if isLeapYear y then 366 else 365

/-- The month-length table of the C time conversion. -/
def monthLengths (leap : Bool) : List Nat :=
  [31, if leap then 29 else 28, 31, 30, 31, 30, 31, 31, 30, 31, 30, 31]

/-- Days in month `m` (1-12) of year `y`. -/
def daysInMonth (y m : Nat) : Nat := (monthLengths (isLeapYear y)).getD (m - 1) 0

/-- Total days in the consecutive years `[y, y + k)`. -/
def yearsSpan : Nat → Nat → Nat
  | _, 0 => 0
  | y, k + 1 => daysInYear y + yearsSpan (y + 1) k

/-- Modelled from the spec: days from 1970-01-01 to year `y`, month `m`, day `d`
(the year/month accumulation loop used by `NetworkingUtils_GetTimeFromIso8601`;
the body of `networking_utils.c` is missing from the sources). -/
def daysFromCivil (y m d : Nat) : Nat :=
  yearsSpan 1970 (y - 1970) + ((monthLengths (isLeapYear y)).take (m - 1)).sum + (d - 1)

/-- Modelled from the spec: the year-search loop turning an epoch day count into
(year, day-of-year); `fuel` bounds the iteration. -/
def yearFromDays : Nat → Nat → Nat → Nat × Nat
  | 0, y, z => (y, z)
  | fuel + 1, y, z =>
      if z < daysInYear y then (y, z) else yearFromDays fuel (y + 1) (z - daysInYear y)

/-- Modelled from the spec: the month-search loop turning a day-of-year into
(month, day-of-month minus one). -/
def monthFromDoy : List Nat → Nat → Nat → Nat × Nat
  | [], m, doy => (m, doy)
  | len :: rest, m, doy =>
      if doy < len then (m, doy) else monthFromDoy rest (m + 1) (doy - len)

/-- Modelled from the spec: epoch day count to civil (year, month, day). -/
def civilFromDays (z : Nat) : Nat × Nat × Nat :=
  let p := yearFromDays z 1970 z
  let q := monthFromDoy (monthLengths (isLeapYear p.1)) 1 p.2
  (p.1, q.1, q.2 + 1)

/-- Two-digit zero-padded decimal as bytes. -/
def digits2 (n : Nat) : ByteSeq := [48 + n / 10 % 10, 48 + n % 10]

/-- Four-digit zero-padded decimal as bytes. -/
def digits4 (n : Nat) : ByteSeq :=
  [48 + n / 1000 % 10, 48 + n / 100 % 10, 48 + n / 10 % 10, 48 + n % 10]

/-- Modelled from the spec: fixed-width `YYYYMMDDTHHMMSSZ` formatting of an epoch
second count (spec section 4.2; `T` = 84, `Z` = 90). -/
def formatIso8601 (t : Nat) : ByteSeq :=
  let c := civilFromDays (t / 86400)
  let s := t % 86400
  digits4 c.1 ++ digits2 c.2.1 ++ digits2 c.2.2 ++ [84]
    ++ digits2 (s / 3600) ++ digits2 (s % 3600 / 60) ++ digits2 (s % 60) ++ [90]

theorem daysInYear_bounds (y : Nat) : 365 ≤ daysInYear y ∧ daysInYear y ≤ 366 := by
  unfold daysInYear
  split <;> omega

theorem monthLengths_sum (leap : Bool) :
    (monthLengths leap).sum = if leap then 366 else 365 := by
  cases leap <;> rfl

theorem monthLengths_length (leap : Bool) : (monthLengths leap).length = 12 := by
  cases leap <;> rfl

theorem yearsSpan_add (a : Nat) : ∀ y b,
    yearsSpan y (a + b) = yearsSpan y a + yearsSpan (y + a) b := by
  induction a with
  | zero => intro y b; simp [yearsSpan]
  | succ n ih =>
      intro y b
      have h1 : n + 1 + b = (n + b) + 1 := by omega
      rw [h1]
      show daysInYear y + yearsSpan (y + 1) (n + b)
          = yearsSpan y (n + 1) + yearsSpan (y + (n + 1)) b
      rw [ih (y + 1) b]
      show daysInYear y + (yearsSpan (y + 1) n + yearsSpan (y + 1 + n) b)
          = daysInYear y + yearsSpan (y + 1) n + yearsSpan (y + (n + 1)) b
      have h2 : y + 1 + n = y + (n + 1) := by omega
      rw [h2]
      omega

theorem yearFromDays_spec (fuel : Nat) : ∀ y z, z ≤ 365 * fuel + 364 →
    ∃ k r, yearFromDays fuel y z = (y + k, r) ∧ yearsSpan y k + r = z ∧
      r < daysInYear (y + k) := by
  induction fuel with
  | zero =>
      intro y z hz
      refine ⟨0, z, by simp [yearFromDays], by simp [yearsSpan], ?_⟩
      have := daysInYear_bounds y
      simpa using (by omega : z < daysInYear y)
  | succ n ih =>
      intro y z hz
      by_cases h : z < daysInYear y
      · exact ⟨0, z, by simp [yearFromDays, h], by simp [yearsSpan], by simpa using h⟩
      · have hy := daysInYear_bounds y
        obtain ⟨k, r, heq, hsum, hlt⟩ := ih (y + 1) (z - daysInYear y) (by omega)
        refine ⟨k + 1, r, ?_, ?_, ?_⟩
        · rw [show yearFromDays (n + 1) y z
              = yearFromDays n (y + 1) (z - daysInYear y) from by simp [yearFromDays, h]]
          rw [heq]
          congr 1
          omega
        · show daysInYear y + yearsSpan (y + 1) k + r = z
          omega
        · have h2 : y + (k + 1) = y + 1 + k := by omega
          rw [h2]
          exact hlt

theorem monthFromDoy_spec (ms : List Nat) : ∀ m doy, doy < ms.sum →
    ∃ k d0, monthFromDoy ms m doy = (m + k, d0) ∧ k < ms.length ∧
      (ms.take k).sum + d0 = doy ∧ d0 < ms.getD k 0 := by
  induction ms with
  | nil => intro m doy h; simp [List.sum_nil] at h
  | cons len rest ih =>
      intro m doy h
      by_cases hlt : doy < len
      · exact ⟨0, doy, by simp [monthFromDoy, hlt], by simp, by simp, by simpa using hlt⟩
      · rw [List.sum_cons] at h
        obtain ⟨k, d0, heq, hk, hsum, hd0⟩ := ih (m + 1) (doy - len) (by omega)
        refine ⟨k + 1, d0, ?_, by simpa using Nat.succ_lt_succ hk, ?_, by simpa using hd0⟩
        · rw [show monthFromDoy (len :: rest) m doy = monthFromDoy rest (m + 1) (doy - len)
              from by simp [monthFromDoy, hlt]]
          rw [heq]
          congr 1
          omega
        · rw [List.take_succ_cons, List.sum_cons]
          omega

set_option maxRecDepth 20000 in
theorem yearsSpan_chunk_1970 : yearsSpan 1970 1000 = 365243 := by decide

set_option maxRecDepth 20000 in
theorem yearsSpan_chunk_2970 : yearsSpan 2970 1000 = 365242 := by decide

set_option maxRecDepth 20000 in
theorem yearsSpan_chunk_3970 : yearsSpan 3970 1000 = 365243 := by decide

set_option maxRecDepth 20000 in
theorem yearsSpan_chunk_4970 : yearsSpan 4970 1000 = 365242 := by decide

set_option maxRecDepth 20000 in
theorem yearsSpan_chunk_5970 : yearsSpan 5970 1000 = 365243 := by decide

set_option maxRecDepth 20000 in
theorem yearsSpan_chunk_6970 : yearsSpan 6970 1000 = 365242 := by decide

set_option maxRecDepth 20000 in
theorem yearsSpan_chunk_7970 : yearsSpan 7970 1000 = 365243 := by decide

set_option maxRecDepth 20000 in
theorem yearsSpan_chunk_8970 : yearsSpan 8970 1000 = 365242 := by decide

set_option maxRecDepth 20000 in
theorem yearsSpan_chunk_9970 : yearsSpan 9970 30 = 10957 := by decide

theorem yearsSpan_1970_8030 : yearsSpan 1970 8030 = 2932897 := by
  have h1 := yearsSpan_add 1000 1970 7030
  have h2 := yearsSpan_add 1000 2970 6030
  have h3 := yearsSpan_add 1000 3970 5030
  have h4 := yearsSpan_add 1000 4970 4030
  have h5 := yearsSpan_add 1000 5970 3030
  have h6 := yearsSpan_add 1000 6970 2030
  have h7 := yearsSpan_add 1000 7970 1030
  have h8 := yearsSpan_add 1000 8970 30
  norm_num at h1 h2 h3 h4 h5 h6 h7 h8
  rw [h1, h2, h3, h4, h5, h6, h7, h8, yearsSpan_chunk_1970, yearsSpan_chunk_2970,
    yearsSpan_chunk_3970, yearsSpan_chunk_4970, yearsSpan_chunk_5970,
    yearsSpan_chunk_6970, yearsSpan_chunk_7970, yearsSpan_chunk_8970,
    yearsSpan_chunk_9970]

theorem civilFromDays_spec (z : Nat) :
    1970 ≤ (civilFromDays z).1 ∧ 1 ≤ (civilFromDays z).2.1 ∧ (civilFromDays z).2.1 ≤ 12 ∧
    1 ≤ (civilFromDays z).2.2 ∧
    (civilFromDays z).2.2 ≤ daysInMonth (civilFromDays z).1 (civilFromDays z).2.1 ∧
    daysFromCivil (civilFromDays z).1 (civilFromDays z).2.1 (civilFromDays z).2.2 = z ∧
    (z ≤ 2932896 → (civilFromDays z).1 ≤ 9999) := by
  obtain ⟨k, r, hyeq, hysum, hylt⟩ := yearFromDays_spec z 1970 z (by omega)
  have hms : r < (monthLengths (isLeapYear (1970 + k))).sum := by
    rw [monthLengths_sum]
    unfold daysInYear at hylt
    split at hylt <;> simp_all
  obtain ⟨k2, d0, hmeq, hk2, hmsum, hd0⟩ :=
    monthFromDoy_spec (monthLengths (isLeapYear (1970 + k))) 1 r hms
  have hciv : civilFromDays z = (1970 + k, 1 + k2, d0 + 1) := by
    simp only [civilFromDays, hyeq, hmeq]
  rw [hciv]
  dsimp only
  have hlen := monthLengths_length (isLeapYear (1970 + k))
  refine ⟨by omega, by omega, by omega, by omega, ?_, ?_, ?_⟩
  · unfold daysInMonth
    have h2 : 1 + k2 - 1 = k2 := by omega
    rw [h2]
    omega
  · unfold daysFromCivil
    have h1 : 1970 + k - 1970 = k := by omega
    have h2 : 1 + k2 - 1 = k2 := by omega
    have h3 : d0 + 1 - 1 = d0 := by omega
    rw [h1, h2, h3]
    omega
  · intro hz
    by_contra hcon
    have hk8030 : 8030 ≤ k := by omega
    have := yearsSpan_add 8030 1970 (k - 8030)
    have heq : 8030 + (k - 8030) = k := by omega
    rw [heq, yearsSpan_1970_8030] at this
    omega

/-- Value of a decimal digit byte. -/
def digitVal (c : Nat) : Nat := c - 48

/-- Decimal digit test on a byte. -/
def isDigitByte (c : Nat) : Bool := decide (48 ≤ c ∧ c ≤ 57)

/-- Modelled from the spec: `NetworkingUtils_GetTimeFromIso8601` parses the
fixed-width `YYYYMMDDTHHMMSSZ` string into epoch seconds; malformed input (wrong
length, non-digit bytes, invalid calendar fields) is a defined failure (`none`),
per spec sections 4.2 and 7 (the body of `networking_utils.c` is missing from
the sources). -/
def NetworkingUtils_GetTimeFromIso8601 (s : ByteSeq) : Option Nat :=
  match s with
  | [y1, y2, y3, y4, m1, m2, d1, d2, tc, h1, h2, n1, n2, s1, s2, zc] =>
      if isDigitByte y1 ∧ isDigitByte y2 ∧ isDigitByte y3 ∧ isDigitByte y4 ∧
          isDigitByte m1 ∧ isDigitByte m2 ∧ isDigitByte d1 ∧ isDigitByte d2 ∧
          tc = 84 ∧ isDigitByte h1 ∧ isDigitByte h2 ∧ isDigitByte n1 ∧
          isDigitByte n2 ∧ isDigitByte s1 ∧ isDigitByte s2 ∧ zc = 90 then
        let y := digitVal y1 * 1000 + digitVal y2 * 100 + digitVal y3 * 10 + digitVal y4
        let mo := digitVal m1 * 10 + digitVal m2
        let da := digitVal d1 * 10 + digitVal d2
        let hh := digitVal h1 * 10 + digitVal h2
        let mi := digitVal n1 * 10 + digitVal n2
        let ss := digitVal s1 * 10 + digitVal s2
        if 1970 ≤ y ∧ 1 ≤ mo ∧ mo ≤ 12 ∧ 1 ≤ da ∧ da ≤ daysInMonth y mo ∧
            hh ≤ 23 ∧ mi ≤ 59 ∧ ss ≤ 59 then
          some (daysFromCivil y mo da * 86400 + hh * 3600 + mi * 60 + ss)
        else none
      else none
  | _ => none

/-- A byte string is a well-formed compact ISO-8601 timestamp: the fixed-width
digit rendering of calendar fields in their valid ranges. -/
def WellFormedIso8601 (s : ByteSeq) : Prop :=
  ∃ y mo da hh mi ss : Nat,
    s = digits4 y ++ digits2 mo ++ digits2 da ++ [84] ++ digits2 hh ++ digits2 mi
        ++ digits2 ss ++ [90] ∧
    1970 ≤ y ∧ y ≤ 9999 ∧ 1 ≤ mo ∧ mo ≤ 12 ∧ 1 ≤ da ∧ da ≤ daysInMonth y mo ∧
    hh ≤ 23 ∧ mi ≤ 59 ∧ ss ≤ 59

theorem iso_concat_eq (y mo da hh mi ss : Nat) :
    digits4 y ++ digits2 mo ++ digits2 da ++ [84] ++ digits2 hh ++ digits2 mi
        ++ digits2 ss ++ [90]
      = [48 + y / 1000 % 10, 48 + y / 100 % 10, 48 + y / 10 % 10, 48 + y % 10,
         48 + mo / 10 % 10, 48 + mo % 10, 48 + da / 10 % 10, 48 + da % 10, 84,
         48 + hh / 10 % 10, 48 + hh % 10, 48 + mi / 10 % 10, 48 + mi % 10,
         48 + ss / 10 % 10, 48 + ss % 10, 90] := rfl

theorem isDigitByte_add (n : Nat) (h : n ≤ 9) : isDigitByte (48 + n) = true := by
  simp only [isDigitByte, decide_eq_true_eq]
  omega

theorem monthLengths_mem_le (leap : Bool) : ∀ x ∈ monthLengths leap, x ≤ 31 := by
  cases leap <;>
    (intro x hx
     simp only [monthLengths] at hx
     norm_num at hx
     rcases hx with h | h | h | h | h | h | h | h | h | h | h | h <;> omega)

theorem daysInMonth_le_31 (y m : Nat) : daysInMonth y m ≤ 31 := by
  unfold daysInMonth
  by_cases h : m - 1 < (monthLengths (isLeapYear y)).length
  · rw [List.getD_eq_getElem _ _ h]
    exact monthLengths_mem_le _ _ (List.getElem_mem h)
  · rw [List.getD_eq_default _ _ (Nat.le_of_not_lt h)]
    omega

theorem parse_digits (y mo da hh mi ss : Nat)
    (hy1 : 1970 ≤ y) (hy2 : y ≤ 9999) (hmo1 : 1 ≤ mo) (hmo2 : mo ≤ 12)
    (hda1 : 1 ≤ da) (hda2 : da ≤ daysInMonth y mo)
    (hhh : hh ≤ 23) (hmi : mi ≤ 59) (hss : ss ≤ 59) :
    NetworkingUtils_GetTimeFromIso8601
        (digits4 y ++ digits2 mo ++ digits2 da ++ [84] ++ digits2 hh ++ digits2 mi
          ++ digits2 ss ++ [90])
      = some (daysFromCivil y mo da * 86400 + hh * 3600 + mi * 60 + ss) := by
  have hdigits : isDigitByte (48 + y / 1000 % 10) = true ∧
      isDigitByte (48 + y / 100 % 10) = true ∧ isDigitByte (48 + y / 10 % 10) = true ∧
      isDigitByte (48 + y % 10) = true ∧ isDigitByte (48 + mo / 10 % 10) = true ∧
      isDigitByte (48 + mo % 10) = true ∧ isDigitByte (48 + da / 10 % 10) = true ∧
      isDigitByte (48 + da % 10) = true ∧ True ∧
      isDigitByte (48 + hh / 10 % 10) = true ∧ isDigitByte (48 + hh % 10) = true ∧
      isDigitByte (48 + mi / 10 % 10) = true ∧ isDigitByte (48 + mi % 10) = true ∧
      isDigitByte (48 + ss / 10 % 10) = true ∧ isDigitByte (48 + ss % 10) = true ∧
      True := by
    refine ⟨?_, ?_, ?_, ?_, ?_, ?_, ?_, ?_, trivial, ?_, ?_, ?_, ?_, ?_, ?_, trivial⟩ <;>
      (apply isDigitByte_add; omega)
  have e1 : digitVal (48 + y / 1000 % 10) * 1000 + digitVal (48 + y / 100 % 10) * 100
      + digitVal (48 + y / 10 % 10) * 10 + digitVal (48 + y % 10) = y := by
    unfold digitVal
    omega
  have e2 : digitVal (48 + mo / 10 % 10) * 10 + digitVal (48 + mo % 10) = mo := by
    unfold digitVal
    omega
  have hda31 : da ≤ 31 := le_trans hda2 (daysInMonth_le_31 y mo)
  have e3 : digitVal (48 + da / 10 % 10) * 10 + digitVal (48 + da % 10) = da := by
    unfold digitVal
    omega
  have e4 : digitVal (48 + hh / 10 % 10) * 10 + digitVal (48 + hh % 10) = hh := by
    unfold digitVal
    omega
  have e5 : digitVal (48 + mi / 10 % 10) * 10 + digitVal (48 + mi % 10) = mi := by
    unfold digitVal
    omega
  have e6 : digitVal (48 + ss / 10 % 10) * 10 + digitVal (48 + ss % 10) = ss := by
    unfold digitVal
    omega
  rw [iso_concat_eq]
  simp only [NetworkingUtils_GetTimeFromIso8601]
  rw [if_pos hdigits]
  simp only [e1, e2, e3, e4, e5, e6]
  rw [if_pos ⟨hy1, hmo1, hmo2, hda1, hda2, hhh, hmi, hss⟩]

/-- C6: parsing the compact ISO-8601 string produced by formatting a valid UTC
instant (one representable in the four-digit-year format, i.e. before year
10000) returns exactly that instant in epoch seconds: parsing inverts
formatting at one-second resolution. -/
theorem parse_format_roundtrip (t : Nat) (h : t < 253402300800) :
    NetworkingUtils_GetTimeFromIso8601 (formatIso8601 t) = some t := by
  obtain ⟨h1970, hmo1, hmo12, hda1, hdaM, hdfc, hy9999⟩ := civilFromDays_spec (t / 86400)
  have hfmt : formatIso8601 t
      = digits4 (civilFromDays (t / 86400)).1 ++ digits2 (civilFromDays (t / 86400)).2.1
        ++ digits2 (civilFromDays (t / 86400)).2.2 ++ [84]
        ++ digits2 (t % 86400 / 3600) ++ digits2 (t % 86400 % 3600 / 60)
        ++ digits2 (t % 86400 % 60) ++ [90] := rfl
  rw [hfmt]
  rw [parse_digits _ _ _ _ _ _ h1970 (hy9999 (by omega)) hmo1 hmo12 hda1 hdaM
    (by omega) (by omega) (by omega)]
  rw [hdfc]
  exact congrArg some (by omega)

theorem parse_format_roundtrip_witness :
    NetworkingUtils_GetTimeFromIso8601 (formatIso8601 1700000000) = some 1700000000 :=
  parse_format_roundtrip 1700000000 (by norm_num)

/-- `NETWORKING_UTILS_TIME_BUFFER_LENGTH` from `networking_utils.h` (line 32):
16 visible ISO-8601 bytes plus the terminator. -/
def NETWORKING_UTILS_TIME_BUFFER_LENGTH : Nat := 17

/-- Modelled from the spec: `NetworkingUtils_GetIso8601CurrentTime` formats the
current UTC time (injected as the epoch-second value `now`, spec section 9's
clock capability) into a caller buffer of capacity `dateBufferLength`; a
capacity below 17 is rejected with `TIME_BUFFER_OUT_OF_MEMORY` (the body of
`networking_utils.c` is missing from the sources). -/
def NetworkingUtils_GetIso8601CurrentTime (now dateBufferLength : Nat) :
    NetworkingUtilsResult × ByteSeq :=
  if dateBufferLength < NETWORKING_UTILS_TIME_BUFFER_LENGTH then
    (.NETWORKING_UTILS_RESULT_TIME_BUFFER_OUT_OF_MEMORY, [])
  else (.NETWORKING_UTILS_RESULT_OK, formatIso8601 now ++ [0])

/-- C7: with a buffer of fewer than 17 bytes (in particular 16) the operation
fails with `TIME_BUFFER_OUT_OF_MEMORY`; with at least 17 bytes it succeeds and
writes the 16-character `YYYYMMDDTHHMMSSZ` rendering of the current time plus a
terminator. -/
theorem getIso8601CurrentTime_capacity (now n : Nat) :
    (n < 17 → NetworkingUtils_GetIso8601CurrentTime now n
        = (.NETWORKING_UTILS_RESULT_TIME_BUFFER_OUT_OF_MEMORY, [])) ∧
    (17 ≤ n → NetworkingUtils_GetIso8601CurrentTime now n
          = (.NETWORKING_UTILS_RESULT_OK, formatIso8601 now ++ [0])
        ∧ (formatIso8601 now).length = 16
        ∧ (formatIso8601 now ++ [0]).length = 17) := by
  constructor
  · intro h
    unfold NetworkingUtils_GetIso8601CurrentTime NETWORKING_UTILS_TIME_BUFFER_LENGTH
    rw [if_pos h]
  · intro h
    refine ⟨?_, ?_, ?_⟩
    · unfold NetworkingUtils_GetIso8601CurrentTime NETWORKING_UTILS_TIME_BUFFER_LENGTH
      rw [if_neg (by omega)]
    · simp [formatIso8601, digits4, digits2]
    · simp [formatIso8601, digits4, digits2]

theorem getIso8601CurrentTime_capacity_witness :
    NetworkingUtils_GetIso8601CurrentTime 0 16
        = (.NETWORKING_UTILS_RESULT_TIME_BUFFER_OUT_OF_MEMORY, []) ∧
    NetworkingUtils_GetIso8601CurrentTime 0 17
        = (.NETWORKING_UTILS_RESULT_OK, formatIso8601 0 ++ [0]) :=
  ⟨(getIso8601CurrentTime_capacity 0 16).1 (by omega),
   ((getIso8601CurrentTime_capacity 0 17).2 (by omega)).1⟩

theorem parse_some_wellFormed (s : ByteSeq) (t : Nat)
    (hp : NetworkingUtils_GetTimeFromIso8601 s = some t) : WellFormedIso8601 s := by
  unfold NetworkingUtils_GetTimeFromIso8601 at hp
  split at hp
  · rename_i y1 y2 y3 y4 m1 m2 d1 d2 tc h1 h2 n1 n2 s1 s2 zc
    split at hp
    · rename_i hcond
      dsimp only at hp
      split at hp
      · rename_i hcond2
        obtain ⟨hy1, hy2, hy3, hy4, hm1, hm2, hd1, hd2, htc, hh1, hh2, hn1, hn2,
          hs1, hs2, hzc⟩ := hcond
        simp only [isDigitByte, decide_eq_true_eq] at hy1 hy2 hy3 hy4 hm1 hm2 hd1 hd2
        simp only [isDigitByte, decide_eq_true_eq] at hh1 hh2 hn1 hn2 hs1 hs2
        obtain ⟨hb1, hb2, hb3, hb4, hb5, hb6, hb7, hb8⟩ := hcond2
        subst htc
        subst hzc
        refine ⟨digitVal y1 * 1000 + digitVal y2 * 100 + digitVal y3 * 10 + digitVal y4,
          digitVal m1 * 10 + digitVal m2, digitVal d1 * 10 + digitVal d2,
          digitVal h1 * 10 + digitVal h2, digitVal n1 * 10 + digitVal n2,
          digitVal s1 * 10 + digitVal s2, ?_, hb1, ?_, hb2, hb3, hb4, hb5, hb6, hb7, hb8⟩
        · rw [iso_concat_eq]
          have c1 : 48 + (digitVal y1 * 1000 + digitVal y2 * 100 + digitVal y3 * 10 + digitVal y4) / 1000 % 10 = y1 := by
            simp only [digitVal]
            omega
          have c2 : 48 + (digitVal y1 * 1000 + digitVal y2 * 100 + digitVal y3 * 10 + digitVal y4) / 100 % 10 = y2 := by
            simp only [digitVal]
            omega
          have c3 : 48 + (digitVal y1 * 1000 + digitVal y2 * 100 + digitVal y3 * 10 + digitVal y4) / 10 % 10 = y3 := by
            simp only [digitVal]
            omega
          have c4 : 48 + (digitVal y1 * 1000 + digitVal y2 * 100 + digitVal y3 * 10 + digitVal y4) % 10 = y4 := by
            simp only [digitVal]
            omega
          have c5 : 48 + (digitVal m1 * 10 + digitVal m2) / 10 % 10 = m1 := by
            simp only [digitVal]
            omega
          have c6 : 48 + (digitVal m1 * 10 + digitVal m2) % 10 = m2 := by
            simp only [digitVal]
            omega
          have c7 : 48 + (digitVal d1 * 10 + digitVal d2) / 10 % 10 = d1 := by
            simp only [digitVal]
            omega
          have c8 : 48 + (digitVal d1 * 10 + digitVal d2) % 10 = d2 := by
            simp only [digitVal]
            omega
          have c9 : 48 + (digitVal h1 * 10 + digitVal h2) / 10 % 10 = h1 := by
            simp only [digitVal]
            omega
          have c10 : 48 + (digitVal h1 * 10 + digitVal h2) % 10 = h2 := by
            simp only [digitVal]
            omega
          have c11 : 48 + (digitVal n1 * 10 + digitVal n2) / 10 % 10 = n1 := by
            simp only [digitVal]
            omega
          have c12 : 48 + (digitVal n1 * 10 + digitVal n2) % 10 = n2 := by
            simp only [digitVal]
            omega
          have c13 : 48 + (digitVal s1 * 10 + digitVal s2) / 10 % 10 = s1 := by
            simp only [digitVal]
            omega
          have c14 : 48 + (digitVal s1 * 10 + digitVal s2) % 10 = s2 := by
            simp only [digitVal]
            omega
          rw [c1, c2, c3, c4, c5, c6, c7, c8, c9, c10, c11, c12, c13, c14]
        · simp only [digitVal]
          omega
      · exact absurd hp (by simp)
    · exact absurd hp (by simp)
  · exact absurd hp (by simp)

/-- C8: an input that is not a well-formed fixed-width `YYYYMMDDTHHMMSSZ`
timestamp (wrong length, non-digit bytes, or invalid calendar fields) makes
`NetworkingUtils_GetTimeFromIso8601` produce the defined failure value `none`,
distinguishable from every successful parse; well-formed input always parses. -/
theorem getTimeFromIso8601_malformed (s : ByteSeq) :
    (¬ WellFormedIso8601 s → NetworkingUtils_GetTimeFromIso8601 s = none) ∧
    (WellFormedIso8601 s → ∃ t, NetworkingUtils_GetTimeFromIso8601 s = some t) := by
  constructor
  · intro hnwf
    cases hp : NetworkingUtils_GetTimeFromIso8601 s with
    | none => rfl
    | some t => exact absurd (parse_some_wellFormed s t hp) hnwf
  · rintro ⟨y, mo, da, hh, mi, ss, hshape, hy1, hy2, hmo1, hmo2, hda1, hda2, hhh, hmi, hss⟩
    subst hshape
    exact ⟨_, parse_digits y mo da hh mi ss hy1 hy2 hmo1 hmo2 hda1 hda2 hhh hmi hss⟩

theorem getTimeFromIso8601_malformed_witness :
    NetworkingUtils_GetTimeFromIso8601 (bytes "20111008T0X0709Z") = none ∧
    (∃ t, NetworkingUtils_GetTimeFromIso8601 (bytes "20111008T070709Z") = some t) := by
  refine ⟨(getTimeFromIso8601_malformed (bytes "20111008T0X0709Z")).1 ?_,
    (getTimeFromIso8601_malformed (bytes "20111008T070709Z")).2 ?_⟩
  · intro hwf
    obtain ⟨y, mo, da, hh, mi, ss, hshape, -, -, -, -, -, -, -, -, -⟩ := hwf
    have hL : (bytes "20111008T0X0709Z").getD 10 0 = 88 := rfl
    have hR : (digits4 y ++ digits2 mo ++ digits2 da ++ [84] ++ digits2 hh
        ++ digits2 mi ++ digits2 ss ++ [90]).getD 10 0 = 48 + hh % 10 := by
      rw [iso_concat_eq]
      rfl
    rw [hshape, hR] at hL
    omega
  · exact ⟨2011, 10, 8, 7, 7, 9, by decide, by omega, by omega, by omega, by omega,
      by omega, by decide, by omega, by omega, by omega⟩

/-- Modelled from the spec: `NetworkingUtils_GetNTPTimeFromUnixTimeUs` converts
Unix-epoch microseconds into the 64-bit NTP fixed-point value (spec section
4.2): high 32 bits are the seconds since 1900-01-01 (Unix seconds plus the
70-year offset 2208988800, reduced into the 32-bit field as the `uint64_t`
shift of the C code does), low 32 bits are the fractional second scaled by
2^32. -/
def NetworkingUtils_GetNTPTimeFromUnixTimeUs (timeUs : Nat) : Nat :=
  ((timeUs / 1000000 + 2208988800) % 4294967296) * 4294967296
    + (timeUs % 1000000) * 4294967296 / 1000000

/-- C9 counterexample: for the 64-bit microsecond count 2086629622000000 the
seconds-since-1900 sum 4295618422 exceeds 2^32, so the high 32 bits of the
64-bit NTP value cannot equal it — they hold the sum reduced modulo 2^32. -/
theorem ntp_high_bits_counterexample :
    NetworkingUtils_GetNTPTimeFromUnixTimeUs 2086629622000000 / 4294967296
      ≠ 2086629622000000 / 1000000 + 2208988800 := by decide

/-- C9 (amended): for every unsigned 64-bit microsecond count `u`, the result is
a 64-bit value whose high 32 bits equal `(u div 10^6 + 2208988800) mod 2^32` —
equal to `u div 10^6 + 2208988800` itself whenever that sum fits in 32 bits —
and whose low 32 bits equal the fractional second `(u mod 10^6)` scaled to
2^32; in particular `u = 0` maps to NTP seconds field 2208988800 with zero
fractional bits. -/
theorem ntp_conversion (u : Nat) (h : u < 18446744073709551616) :
    NetworkingUtils_GetNTPTimeFromUnixTimeUs u < 18446744073709551616 ∧
    NetworkingUtils_GetNTPTimeFromUnixTimeUs u / 4294967296
      = (u / 1000000 + 2208988800) % 4294967296 ∧
    NetworkingUtils_GetNTPTimeFromUnixTimeUs u % 4294967296
      = (u % 1000000) * 4294967296 / 1000000 ∧
    (u / 1000000 + 2208988800 < 4294967296 →
      NetworkingUtils_GetNTPTimeFromUnixTimeUs u / 4294967296
        = u / 1000000 + 2208988800) ∧
    NetworkingUtils_GetNTPTimeFromUnixTimeUs 0 = 2208988800 * 4294967296 := by
  unfold NetworkingUtils_GetNTPTimeFromUnixTimeUs
  have hb32 : (u % 1000000) * 4294967296 / 1000000 < 4294967296 := by omega
  have hx32 : (u / 1000000 + 2208988800) % 4294967296 < 4294967296 := by omega
  generalize hB : (u % 1000000) * 4294967296 / 1000000 = b at hb32 ⊢
  generalize hX : (u / 1000000 + 2208988800) % 4294967296 = x at hx32 ⊢
  refine ⟨by omega, by omega, by omega, fun hs => by omega, by norm_num⟩

theorem ntp_conversion_witness :
    NetworkingUtils_GetNTPTimeFromUnixTimeUs 1500000 / 4294967296
      = (1500000 / 1000000 + 2208988800) % 4294967296 :=
  (ntp_conversion 1500000 (by norm_num)).2.1

/-- `NETWORKING_UTILS_KVS_SERVICE_NAME` from `networking_utils.h` (line 33). -/
def NETWORKING_UTILS_KVS_SERVICE_NAME : ByteSeq := bytes "kinesisvideo"

/-- Lowercase hex digit byte of a nibble (`0` = 48, `a` = 97). -/
def hexDigit (n : Nat) : Nat := if n < 10 then 48 + n else 87 + n

/-- Lowercase hex encoding of a byte sequence. -/
def hexEncode : ByteSeq → ByteSeq
  | [] => []
  | b :: rest => hexDigit (b / 16) :: hexDigit (b % 16) :: hexEncode rest

/-- `NetworkingUtilsCanonicalRequest_t` from `networking_utils.h` (lines 56-67);
pointer/length pairs become byte sequences. -/
structure NetworkingUtilsCanonicalRequest where
  verb : NetworkingHttpVerb
  pPath : ByteSeq
  pCanonicalQueryString : ByteSeq
  pCanonicalHeaders : ByteSeq
  pPayload : ByteSeq
deriving DecidableEq, Repr

/-- `SigV4Credentials_t` (from the SigV4 library interface used by the header):
access key id and secret access key. -/
structure SigV4Credentials where
  pAccessKeyId : ByteSeq
  pSecretAccessKey : ByteSeq
deriving DecidableEq, Repr

/-- Modelled from the spec: the verb token of the canonical request (spec
section 4.3); a WebSocket upgrade is signed as `GET`. -/
def verbToken : NetworkingHttpVerb → ByteSeq
  | .NETWORKING_UTILS_HTTP_VERB_NONE => []
  | .NETWORKING_UTILS_HTTP_VERB_GET => bytes "GET"
  | .NETWORKING_UTILS_HTTP_VERB_POST => bytes "POST"
  | .NETWORKING_UTILS_HTTP_VERB_WSS => bytes "GET"

/-- Modelled from the spec: the signed-header-name list derived from the
caller's pre-sorted canonical headers block (the name before the first `:` of
each `name:value` line, joined with `;`). -/
def signedHeaderNames (headers : ByteSeq) : ByteSeq :=
  List.intercalate [59]
    (((headers.splitOn 10).filter (fun l => !l.isEmpty)).map
      (fun l => l.takeWhile (fun c => c != 58)))

/-- Modelled from the spec: the credential scope (spec section 4.4):
`date8 "/" region "/" service "/aws4_request"`. -/
def credentialScope (date8 region service : ByteSeq) : ByteSeq :=
  date8 ++ [47] ++ region ++ [47] ++ service ++ bytes "/aws4_request"

/-- Modelled from the spec: the canonical request string (spec section 4.3). -/
def canonicalRequestString (sha256 : ByteSeq → ByteSeq)
    (cr : NetworkingUtilsCanonicalRequest) : ByteSeq :=
  verbToken cr.verb ++ [10] ++ cr.pPath ++ [10] ++ cr.pCanonicalQueryString ++ [10]
    ++ cr.pCanonicalHeaders ++ [10] ++ signedHeaderNames cr.pCanonicalHeaders ++ [10]
    ++ hexEncode (sha256 cr.pPayload)

/-- Modelled from the spec: the string to sign (spec section 4.4, stage 1). -/
def stringToSign (sha256 : ByteSeq → ByteSeq) (cr : NetworkingUtilsCanonicalRequest)
    (date region service : ByteSeq) : ByteSeq :=
  bytes "AWS4-HMAC-SHA256" ++ [10] ++ date ++ [10]
    ++ credentialScope (date.take 8) region service ++ [10]
    ++ hexEncode (sha256 (canonicalRequestString sha256 cr))

/-- Modelled from the spec: the HMAC-SHA256 key-derivation chain (spec section
4.4, stage 2). The HMAC primitive is the external crypto collaborator of spec
section 9; a step that cannot complete yields `none`. -/
def deriveSigningKey (hmac : ByteSeq → ByteSeq → Option ByteSeq)
    (secret date8 region service : ByteSeq) : Option ByteSeq :=
  (hmac (bytes "AWS4" ++ secret) date8).bind fun kDate =>
  (hmac kDate region).bind fun kRegion =>
  (hmac kRegion service).bind fun kService =>
  hmac kService (bytes "aws4_request")

/-- Modelled from the spec: the final signature HMAC over the string to sign. -/
def computeSignature (hmac : ByteSeq → ByteSeq → Option ByteSeq)
    (secret date8 region service sts : ByteSeq) : Option ByteSeq :=
  (deriveSigningKey hmac secret date8 region service).bind fun kSigning =>
  hmac kSigning sts

/-- Modelled from the spec: the signature-calculator stage; an HMAC step that
cannot complete is reported as `FAIL_SIGV4_GENAUTH`, this stage's only error
(spec section 4.4). -/
def signatureStage (hmac : ByteSeq → ByteSeq → Option ByteSeq)
    (secret date8 region service sts : ByteSeq) :
    Except NetworkingUtilsResult ByteSeq :=
  match computeSignature hmac secret date8 region service sts with
  | none => .error .NETWORKING_UTILS_RESULT_FAIL_SIGV4_GENAUTH
  | some sig => .ok (hexEncode sig)

/-- The outputs of header generation: the caller buffer after the call, the
reported written length, and the offset/length of the signature inside the
written header. -/
structure GenAuthOutput where
  buffer : ByteSeq
  writtenLength : Nat
  sigOffset : Nat
  sigLength : Nat
deriving DecidableEq, Repr

/-- Modelled from the spec: everything of the Authorization header value before
the signature hex (spec section 4.5). -/
def authHead (akid scope sh : ByteSeq) : ByteSeq :=
  bytes "AWS4-HMAC-SHA256 Credential=" ++ akid ++ [47] ++ scope
    ++ bytes ", SignedHeaders=" ++ sh ++ bytes ", Signature="

/-- Modelled from the spec: the full Authorization header value (spec section 4.5). -/
def authHeaderString (akid scope sh sigHex : ByteSeq) : ByteSeq :=
  authHead akid scope sh ++ sigHex

/-- Modelled from the spec: header generation with an explicit service name.
The write into the caller buffer is all-or-nothing (spec sections 4.5 and 7):
on any failure the buffer is returned unchanged with zero written length, and a
buffer too small for the full header string is rejected with `BAD_PARAMETER`. -/
def genAuthWithService (hmac : ByteSeq → ByteSeq → Option ByteSeq)
    (sha256 : ByteSeq → ByteSeq) (service : ByteSeq)
    (cr : NetworkingUtilsCanonicalRequest) (cred : SigV4Credentials)
    (region date buffer : ByteSeq) : NetworkingUtilsResult × GenAuthOutput :=
  let date8 := date.take 8
  let scope := credentialScope date8 region service
  match signatureStage hmac cred.pSecretAccessKey date8 region service
      (stringToSign sha256 cr date region service) with
  | .error e => (e, ⟨buffer, 0, 0, 0⟩)
  | .ok sigHex =>
      let out := authHeaderString cred.pAccessKeyId scope
          (signedHeaderNames cr.pCanonicalHeaders) sigHex
      if out.length ≤ buffer.length then
        (.NETWORKING_UTILS_RESULT_OK,
         ⟨out ++ buffer.drop out.length, out.length,
          out.length - sigHex.length, sigHex.length⟩)
      else (.NETWORKING_UTILS_RESULT_BAD_PARAMETER, ⟨buffer, 0, 0, 0⟩)

/-- Modelled from the spec: `NetworkingUtils_GenrerateAuthorizationHeader` (the
body of `networking_utils.c` is missing from the sources). Per the header in
src/ the interface takes no service-name parameter: the service is the
compile-time constant `NETWORKING_UTILS_KVS_SERVICE_NAME`. -/
def NetworkingUtils_GenrerateAuthorizationHeader
    (hmac : ByteSeq → ByteSeq → Option ByteSeq) (sha256 : ByteSeq → ByteSeq)
    (cr : NetworkingUtilsCanonicalRequest) (cred : SigV4Credentials)
    (region date buffer : ByteSeq) : NetworkingUtilsResult × GenAuthOutput :=
  genAuthWithService hmac sha256 NETWORKING_UTILS_KVS_SERVICE_NAME cr cred
    region date buffer

theorem computeSignature_some_chain (hmac : ByteSeq → ByteSeq → Option ByteSeq)
    (secret date8 region service sts s : ByteSeq)
    (h : computeSignature hmac secret date8 region service sts = some s) :
    ∃ kDate kRegion kService kSigning,
      hmac (bytes "AWS4" ++ secret) date8 = some kDate ∧
      hmac kDate region = some kRegion ∧
      hmac kRegion service = some kService ∧
      hmac kService (bytes "aws4_request") = some kSigning ∧
      hmac kSigning sts = some s := by
  unfold computeSignature deriveSigningKey at h
  cases h1 : hmac (bytes "AWS4" ++ secret) date8 with
  | none => rw [h1, Option.none_bind, Option.none_bind] at h; cases h
  | some kDate =>
      rw [h1, Option.some_bind] at h
      cases h2 : hmac kDate region with
      | none => rw [h2, Option.none_bind, Option.none_bind] at h; cases h
      | some kRegion =>
          rw [h2, Option.some_bind] at h
          cases h3 : hmac kRegion service with
          | none => rw [h3, Option.none_bind, Option.none_bind] at h; cases h
          | some kService =>
              rw [h3, Option.some_bind] at h
              cases h4 : hmac kService (bytes "aws4_request") with
              | none => rw [h4, Option.none_bind] at h; cases h
              | some kSigning =>
                  rw [h4, Option.some_bind] at h
                  exact ⟨kDate, kRegion, kService, kSigning, rfl, h2, h3, h4, h⟩

theorem computeSignature_of_chain (hmac : ByteSeq → ByteSeq → Option ByteSeq)
    (secret date8 region service sts : ByteSeq)
    (kDate kRegion kService kSigning s : ByteSeq)
    (h1 : hmac (bytes "AWS4" ++ secret) date8 = some kDate)
    (h2 : hmac kDate region = some kRegion)
    (h3 : hmac kRegion service = some kService)
    (h4 : hmac kService (bytes "aws4_request") = some kSigning)
    (h5 : hmac kSigning sts = some s) :
    computeSignature hmac secret date8 region service sts = some s := by
  unfold computeSignature deriveSigningKey
  rw [h1, Option.some_bind, h2, Option.some_bind, h3, Option.some_bind, h4,
    Option.some_bind, h5]

theorem drop_take_suffix (pre sig rest : ByteSeq) :
    (((pre ++ sig) ++ rest).drop ((pre ++ sig).length - sig.length)).take sig.length
      = sig := by
  have h1 : (pre ++ sig).length - sig.length = pre.length := by
    rw [List.length_append]
    omega
  rw [h1, List.append_assoc, List.drop_left, List.take_left]

theorem stringToSign_eq (sha256 : ByteSeq → ByteSeq)
    (cr : NetworkingUtilsCanonicalRequest) (date region service : ByteSeq) :
    stringToSign sha256 cr date region service
      = bytes "AWS4-HMAC-SHA256" ++ [10] ++ date ++ [10]
        ++ credentialScope (date.take 8) region service ++ [10]
        ++ hexEncode (sha256 (canonicalRequestString sha256 cr)) := rfl

theorem signatureStage_error_eq (hmac : ByteSeq → ByteSeq → Option ByteSeq)
    (secret date8 region service sts : ByteSeq) (e : NetworkingUtilsResult)
    (h : signatureStage hmac secret date8 region service sts = .error e) :
    e = .NETWORKING_UTILS_RESULT_FAIL_SIGV4_GENAUTH ∧
    computeSignature hmac secret date8 region service sts = none := by
  unfold signatureStage at h
  cases hcs : computeSignature hmac secret date8 region service sts with
  | none =>
      rw [hcs] at h
      cases h
      exact ⟨rfl, rfl⟩
  | some s =>
      rw [hcs] at h
      cases h

/-- C1: on every input `NetworkingUtils_GenrerateAuthorizationHeader` accepts,
the signature it returns is the SigV4 reference computation: the lowercase-hex
encoding of HMAC(kSigning, stringToSign) with stringToSign =
`"AWS4-HMAC-SHA256"` LF timestamp LF credentialScope LF hexSHA256(canonical
request), and kSigning derived by the chain kDate = HMAC("AWS4" + secret,
date8), kRegion = HMAC(kDate, region), kService = HMAC(kRegion, service),
kSigning = HMAC(kService, "aws4_request"); the signature stage's only error is
`FAIL_SIGV4_GENAUTH`, raised exactly when some HMAC step cannot complete. -/
theorem genauth_signature_reference (hmac : ByteSeq → ByteSeq → Option ByteSeq)
    (sha256 : ByteSeq → ByteSeq) (cr : NetworkingUtilsCanonicalRequest)
    (cred : SigV4Credentials) (region date buffer : ByteSeq) :
    (∀ o, NetworkingUtils_GenrerateAuthorizationHeader hmac sha256 cr cred
        region date buffer = (.NETWORKING_UTILS_RESULT_OK, o) →
      ∃ kDate kRegion kService kSigning sig,
        hmac (bytes "AWS4" ++ cred.pSecretAccessKey) (date.take 8) = some kDate ∧
        hmac kDate region = some kRegion ∧
        hmac kRegion NETWORKING_UTILS_KVS_SERVICE_NAME = some kService ∧
        hmac kService (bytes "aws4_request") = some kSigning ∧
        hmac kSigning (bytes "AWS4-HMAC-SHA256" ++ [10] ++ date ++ [10]
          ++ credentialScope (date.take 8) region NETWORKING_UTILS_KVS_SERVICE_NAME
          ++ [10] ++ hexEncode (sha256 (canonicalRequestString sha256 cr)))
          = some sig ∧
        (o.buffer.drop o.sigOffset).take o.sigLength = hexEncode sig) ∧
    (∀ e, signatureStage hmac cred.pSecretAccessKey (date.take 8) region
        NETWORKING_UTILS_KVS_SERVICE_NAME
        (stringToSign sha256 cr date region NETWORKING_UTILS_KVS_SERVICE_NAME)
        = .error e → e = .NETWORKING_UTILS_RESULT_FAIL_SIGV4_GENAUTH) ∧
    (signatureStage hmac cred.pSecretAccessKey (date.take 8) region
        NETWORKING_UTILS_KVS_SERVICE_NAME
        (stringToSign sha256 cr date region NETWORKING_UTILS_KVS_SERVICE_NAME)
        = .error .NETWORKING_UTILS_RESULT_FAIL_SIGV4_GENAUTH ↔
      ¬ ∃ kDate kRegion kService kSigning sig,
        hmac (bytes "AWS4" ++ cred.pSecretAccessKey) (date.take 8) = some kDate ∧
        hmac kDate region = some kRegion ∧
        hmac kRegion NETWORKING_UTILS_KVS_SERVICE_NAME = some kService ∧
        hmac kService (bytes "aws4_request") = some kSigning ∧
        hmac kSigning (stringToSign sha256 cr date region
          NETWORKING_UTILS_KVS_SERVICE_NAME) = some sig) := by
  refine ⟨?_, ?_, ?_⟩
  · intro o heq
    unfold NetworkingUtils_GenrerateAuthorizationHeader genAuthWithService at heq
    dsimp only at heq
    cases hss : signatureStage hmac cred.pSecretAccessKey (date.take 8) region
        NETWORKING_UTILS_KVS_SERVICE_NAME
        (stringToSign sha256 cr date region NETWORKING_UTILS_KVS_SERVICE_NAME) with
    | error e =>
        rw [hss] at heq
        obtain ⟨hFAIL, -⟩ := signatureStage_error_eq _ _ _ _ _ _ _ hss
        subst hFAIL
        simp at heq
    | ok sigHex =>
        rw [hss] at heq
        have hsig : ∃ sig, computeSignature hmac cred.pSecretAccessKey
            (date.take 8) region NETWORKING_UTILS_KVS_SERVICE_NAME
            (stringToSign sha256 cr date region NETWORKING_UTILS_KVS_SERVICE_NAME)
              = some sig ∧ sigHex = hexEncode sig := by
          unfold signatureStage at hss
          cases hcs : computeSignature hmac cred.pSecretAccessKey (date.take 8)
              region NETWORKING_UTILS_KVS_SERVICE_NAME
              (stringToSign sha256 cr date region NETWORKING_UTILS_KVS_SERVICE_NAME) with
          | none => rw [hcs] at hss; cases hss
          | some s =>
              rw [hcs] at hss
              cases hss
              exact ⟨s, rfl, rfl⟩
        obtain ⟨sig, hcs, hhex⟩ := hsig
        obtain ⟨kD, kR, kS, kSg, h1, h2, h3, h4, h5⟩ :=
          computeSignature_some_chain _ _ _ _ _ _ _ hcs
        refine ⟨kD, kR, kS, kSg, sig, h1, h2, h3, h4, h5, ?_⟩
        dsimp only at heq
        split at heq
        · rw [Prod.mk.injEq] at heq
          obtain ⟨-, ho⟩ := heq
          subst ho
          subst hhex
          exact drop_take_suffix _ _ _
        · simp at heq
  · intro e he
    exact (signatureStage_error_eq _ _ _ _ _ _ _ he).1
  · constructor
    · intro herr
      obtain ⟨-, hnone⟩ := signatureStage_error_eq _ _ _ _ _ _ _ herr
      rintro ⟨kD, kR, kS, kSg, sg, h1, h2, h3, h4, h5⟩
      have hsome := computeSignature_of_chain hmac cred.pSecretAccessKey
        (date.take 8) region NETWORKING_UTILS_KVS_SERVICE_NAME
        (stringToSign sha256 cr date region NETWORKING_UTILS_KVS_SERVICE_NAME)
        kD kR kS kSg sg h1 h2 h3 h4 h5
      rw [hsome] at hnone
      cases hnone
    · intro hnex
      unfold signatureStage
      cases hcs : computeSignature hmac cred.pSecretAccessKey (date.take 8)
          region NETWORKING_UTILS_KVS_SERVICE_NAME
          (stringToSign sha256 cr date region NETWORKING_UTILS_KVS_SERVICE_NAME) with
      | none => rfl
      | some s =>
          obtain ⟨kD, kR, kS, kSg, h1, h2, h3, h4, h5⟩ :=
            computeSignature_some_chain _ _ _ _ _ _ _ hcs
          exact absurd ⟨kD, kR, kS, kSg, s, h1, h2, h3, h4, h5⟩ hnex

/-- A concrete stand-in HMAC used by witnesses: always succeeds, returning the
first two bytes of the message. -/
def hmacTest : ByteSeq → ByteSeq → Option ByteSeq := fun _ m => some (m.take 2)

/-- A concrete stand-in payload hash used by witnesses. -/
def shaTest : ByteSeq → ByteSeq := fun m => [m.length % 256]

/-- An always-failing HMAC stand-in used by witnesses. -/
def hmacFail : ByteSeq → ByteSeq → Option ByteSeq := fun _ _ => none

/-- A concrete canonical-request descriptor used by witnesses. -/
def crTest : NetworkingUtilsCanonicalRequest :=
  ⟨.NETWORKING_UTILS_HTTP_VERB_GET, bytes "/", [], bytes "host:example.com\n", []⟩

/-- Concrete credentials used by witnesses. -/
def credTest : SigV4Credentials := ⟨bytes "AKID", bytes "SECRET"⟩

/-- A concrete ISO-8601 timestamp used by witnesses. -/
def dateTest : ByteSeq := bytes "20240101T000000Z"

set_option maxRecDepth 10000 in
theorem genauth_signature_reference_witness :
    ∃ kDate kRegion kService kSigning sig,
      hmacTest (bytes "AWS4" ++ credTest.pSecretAccessKey) (dateTest.take 8)
        = some kDate ∧
      hmacTest kDate (bytes "r") = some kRegion ∧
      hmacTest kRegion NETWORKING_UTILS_KVS_SERVICE_NAME = some kService ∧
      hmacTest kService (bytes "aws4_request") = some kSigning ∧
      hmacTest kSigning (bytes "AWS4-HMAC-SHA256" ++ [10] ++ dateTest ++ [10]
        ++ credentialScope (dateTest.take 8) (bytes "r")
          NETWORKING_UTILS_KVS_SERVICE_NAME
        ++ [10] ++ hexEncode (shaTest (canonicalRequestString shaTest crTest)))
        = some sig ∧
      ((NetworkingUtils_GenrerateAuthorizationHeader hmacTest shaTest crTest credTest
          (bytes "r") dateTest (List.replicate 200 0)).2.buffer.drop
        (NetworkingUtils_GenrerateAuthorizationHeader hmacTest shaTest crTest credTest
          (bytes "r") dateTest (List.replicate 200 0)).2.sigOffset).take
        (NetworkingUtils_GenrerateAuthorizationHeader hmacTest shaTest crTest credTest
          (bytes "r") dateTest (List.replicate 200 0)).2.sigLength
        = hexEncode sig :=
  (genauth_signature_reference hmacTest shaTest crTest credTest (bytes "r") dateTest
    (List.replicate 200 0)).1 _ (by decide)

/-- C2: on success the caller buffer holds exactly the string
`"AWS4-HMAC-SHA256 Credential=" + accessKeyId + "/" + credentialScope +
", SignedHeaders=" + signedHeaderNames + ", Signature=" + signatureHex`, the
written length is reported, the returned signature offset/length designates
exactly the signature substring of the written buffer; a buffer too small for
the full string fails with `BAD_PARAMETER`; on every failure the buffer is
returned unchanged with zero written length (all-or-nothing). -/
theorem genauth_output_all_or_nothing (hmac : ByteSeq → ByteSeq → Option ByteSeq)
    (sha256 : ByteSeq → ByteSeq) (cr : NetworkingUtilsCanonicalRequest)
    (cred : SigV4Credentials) (region date buffer : ByteSeq) :
    (∀ o, NetworkingUtils_GenrerateAuthorizationHeader hmac sha256 cr cred
        region date buffer = (.NETWORKING_UTILS_RESULT_OK, o) →
      ∃ sigHex,
        signatureStage hmac cred.pSecretAccessKey (date.take 8) region
          NETWORKING_UTILS_KVS_SERVICE_NAME
          (stringToSign sha256 cr date region NETWORKING_UTILS_KVS_SERVICE_NAME)
          = .ok sigHex ∧
        o.buffer = (bytes "AWS4-HMAC-SHA256 Credential=" ++ cred.pAccessKeyId
            ++ [47] ++ credentialScope (date.take 8) region
              NETWORKING_UTILS_KVS_SERVICE_NAME
            ++ bytes ", SignedHeaders=" ++ signedHeaderNames cr.pCanonicalHeaders
            ++ bytes ", Signature=" ++ sigHex) ++ buffer.drop o.writtenLength ∧
        o.writtenLength = (bytes "AWS4-HMAC-SHA256 Credential=" ++ cred.pAccessKeyId
            ++ [47] ++ credentialScope (date.take 8) region
              NETWORKING_UTILS_KVS_SERVICE_NAME
            ++ bytes ", SignedHeaders=" ++ signedHeaderNames cr.pCanonicalHeaders
            ++ bytes ", Signature=" ++ sigHex).length ∧
        o.writtenLength ≤ buffer.length ∧
        o.buffer.take o.writtenLength = bytes "AWS4-HMAC-SHA256 Credential="
            ++ cred.pAccessKeyId ++ [47] ++ credentialScope (date.take 8) region
              NETWORKING_UTILS_KVS_SERVICE_NAME
            ++ bytes ", SignedHeaders=" ++ signedHeaderNames cr.pCanonicalHeaders
            ++ bytes ", Signature=" ++ sigHex ∧
        o.buffer.length = buffer.length ∧
        (o.buffer.drop o.sigOffset).take o.sigLength = sigHex ∧
        o.sigOffset + o.sigLength = o.writtenLength) ∧
    (∀ sigHex, signatureStage hmac cred.pSecretAccessKey (date.take 8) region
        NETWORKING_UTILS_KVS_SERVICE_NAME
        (stringToSign sha256 cr date region NETWORKING_UTILS_KVS_SERVICE_NAME)
        = .ok sigHex →
      buffer.length < (authHeaderString cred.pAccessKeyId
        (credentialScope (date.take 8) region NETWORKING_UTILS_KVS_SERVICE_NAME)
        (signedHeaderNames cr.pCanonicalHeaders) sigHex).length →
      NetworkingUtils_GenrerateAuthorizationHeader hmac sha256 cr cred region
        date buffer = (.NETWORKING_UTILS_RESULT_BAD_PARAMETER, ⟨buffer, 0, 0, 0⟩)) ∧
    ((NetworkingUtils_GenrerateAuthorizationHeader hmac sha256 cr cred region
        date buffer).1 ≠ .NETWORKING_UTILS_RESULT_OK →
      (NetworkingUtils_GenrerateAuthorizationHeader hmac sha256 cr cred region
        date buffer).2 = ⟨buffer, 0, 0, 0⟩) := by
  refine ⟨?_, ?_, ?_⟩
  · intro o heq
    unfold NetworkingUtils_GenrerateAuthorizationHeader genAuthWithService at heq
    dsimp only at heq
    cases hss : signatureStage hmac cred.pSecretAccessKey (date.take 8) region
        NETWORKING_UTILS_KVS_SERVICE_NAME
        (stringToSign sha256 cr date region NETWORKING_UTILS_KVS_SERVICE_NAME) with
    | error e =>
        rw [hss] at heq
        obtain ⟨hFAIL, -⟩ := signatureStage_error_eq _ _ _ _ _ _ _ hss
        subst hFAIL
        simp at heq
    | ok sigHex =>
        rw [hss] at heq
        dsimp only at heq
        split at heq
        · rename_i hfit
          rw [Prod.mk.injEq] at heq
          obtain ⟨-, ho⟩ := heq
          subst ho
          refine ⟨sigHex, rfl, rfl, rfl, hfit, ?_, ?_, ?_, ?_⟩
          · exact List.take_left _ _
          · rw [List.length_append, List.length_drop]
            omega
          · exact drop_take_suffix _ _ _
          · dsimp only
            unfold authHeaderString
            rw [List.length_append]
            omega
        · simp at heq
  · intro sigHex hss hlen
    unfold NetworkingUtils_GenrerateAuthorizationHeader genAuthWithService
    dsimp only
    rw [hss]
    dsimp only
    rw [if_neg (by omega)]
  · intro hne
    unfold NetworkingUtils_GenrerateAuthorizationHeader genAuthWithService at hne ⊢
    dsimp only at hne ⊢
    cases hss : signatureStage hmac cred.pSecretAccessKey (date.take 8) region
        NETWORKING_UTILS_KVS_SERVICE_NAME
        (stringToSign sha256 cr date region NETWORKING_UTILS_KVS_SERVICE_NAME) with
    | error e => rfl
    | ok sigHex =>
        rw [hss] at hne
        dsimp only at hne ⊢
        split at hne
        · exact absurd rfl hne
        · rw [if_neg (by assumption)]

theorem genauth_output_all_or_nothing_witness :
    (NetworkingUtils_GenrerateAuthorizationHeader hmacFail shaTest crTest credTest
        (bytes "r") dateTest (List.replicate 5 7)).2
      = ⟨List.replicate 5 7, 0, 0, 0⟩ :=
  (genauth_output_all_or_nothing hmacFail shaTest crTest credTest (bytes "r")
    dateTest (List.replicate 5 7)).2.2 (by decide)

/-- C10: the public interface takes no service-name parameter — header
generation is generation with the fixed compile-time service string
`"kinesisvideo"` — so the credential scope of every written Authorization
header is scoped to the substring `"/kinesisvideo/aws4_request"` and no caller
can scope a signature to any other service. -/
theorem genauth_service_fixed (hmac : ByteSeq → ByteSeq → Option ByteSeq)
    (sha256 : ByteSeq → ByteSeq) (cr : NetworkingUtilsCanonicalRequest)
    (cred : SigV4Credentials) (region date buffer : ByteSeq) :
    NetworkingUtils_GenrerateAuthorizationHeader hmac sha256 cr cred region date
        buffer
      = genAuthWithService hmac sha256 (bytes "kinesisvideo") cr cred region date
          buffer ∧
    NETWORKING_UTILS_KVS_SERVICE_NAME = bytes "kinesisvideo" ∧
    (∀ o, NetworkingUtils_GenrerateAuthorizationHeader hmac sha256 cr cred region
        date buffer = (.NETWORKING_UTILS_RESULT_OK, o) →
      ∃ pre post, o.buffer = pre ++ bytes "/kinesisvideo/aws4_request" ++ post) := by
  refine ⟨rfl, rfl, ?_⟩
  intro o heq
  unfold NetworkingUtils_GenrerateAuthorizationHeader genAuthWithService at heq
  dsimp only at heq
  cases hss : signatureStage hmac cred.pSecretAccessKey (date.take 8) region
      NETWORKING_UTILS_KVS_SERVICE_NAME
      (stringToSign sha256 cr date region NETWORKING_UTILS_KVS_SERVICE_NAME) with
  | error e =>
      rw [hss] at heq
      obtain ⟨hFAIL, -⟩ := signatureStage_error_eq _ _ _ _ _ _ _ hss
      subst hFAIL
      simp at heq
  | ok sigHex =>
      rw [hss] at heq
      dsimp only at heq
      split at heq
      · rw [Prod.mk.injEq] at heq
        obtain ⟨-, ho⟩ := heq
        subst ho
        refine ⟨bytes "AWS4-HMAC-SHA256 Credential=" ++ cred.pAccessKeyId ++ [47]
            ++ date.take 8 ++ [47] ++ region,
          bytes ", SignedHeaders=" ++ signedHeaderNames cr.pCanonicalHeaders
            ++ bytes ", Signature=" ++ sigHex
            ++ buffer.drop (authHeaderString cred.pAccessKeyId
              (credentialScope (date.take 8) region NETWORKING_UTILS_KVS_SERVICE_NAME)
              (signedHeaderNames cr.pCanonicalHeaders) sigHex).length, ?_⟩
        dsimp only
        have hmid : bytes "/kinesisvideo/aws4_request"
            = [47] ++ (bytes "kinesisvideo" ++ bytes "/aws4_request") := by decide
        rw [hmid]
        unfold authHeaderString authHead credentialScope
          NETWORKING_UTILS_KVS_SERVICE_NAME
        simp only [List.append_assoc]
      · simp at heq

set_option maxRecDepth 10000 in
theorem genauth_service_fixed_witness :
    ∃ pre post,
      (NetworkingUtils_GenrerateAuthorizationHeader hmacTest shaTest crTest credTest
        (bytes "r") dateTest (List.replicate 200 0)).2.buffer
        = pre ++ bytes "/kinesisvideo/aws4_request" ++ post :=
  (genauth_service_fixed hmacTest shaTest crTest credTest (bytes "r") dateTest
    (List.replicate 200 0)).2.2 _ (by decide)
